import Mathlib

/-!
Verification development for the guardian-cli check engine and host
resolution subsystem.  The Rust sources under `src/` are shallowly embedded:
pure string analysis is translated to Lean functions over `String` /
`List Char`, the file system is modelled as an explicit tree, and the HTTP
transport used by the host resolver is modelled as an oracle mapping each
host to the outcome of its probe.  External collaborators that the sources
delegate to (the TOML parser, the OS path canonicaliser, OS error message
texts) are parameters of the embedding, mirroring the repository's own
boundary.
-/

namespace Guardian

/-! ## String primitives

The Rust checks use `str::find`, `str::contains`, `str::starts_with`,
`str::trim`, `str::lines` and slicing.  They are modelled over `List Char`
(character indices standing in for byte indices; all analysed text in the
claims is ASCII, where the two coincide).
-/

/-- Whether `pat` is a prefix of `s` (model of `str::starts_with`). -/
def isPrefixL : List Char → List Char → Bool
  | [], _ => true
  | _ :: _, [] => false
  | p :: ps, c :: cs => p = c && isPrefixL ps cs

/-- Index of the first occurrence of `pat` in `s`, if any (model of `str::find`). -/
def findSub (pat : List Char) : List Char → Option Nat
  | [] => if isPrefixL pat [] then some 0 else none
  | c :: rest =>
    if isPrefixL pat (c :: rest) then some 0
    else (findSub pat rest).map (· + 1)

/-- Substring containment (model of `str::contains` for string patterns). -/
def strContains (s pat : String) : Bool :=
  (findSub pat.data s.data).isSome

/-- Containment of a single character (model of `str::contains(char)`). -/
def strContainsChar (s : String) (c : Char) : Bool :=
  s.data.contains c

/-- Prefix test on strings (model of `str::starts_with`). -/
def strStartsWith (s pat : String) : Bool :=
  isPrefixL pat.data s.data

/-- Suffix test on strings (model of `str::ends_with`). -/
def strEndsWith (s pat : String) : Bool :=
  isPrefixL pat.data.reverse s.data.reverse

/-- Trim leading and trailing whitespace (model of `str::trim`). -/
def strTrim (s : String) : String :=
  String.mk (((s.data.dropWhile Char.isWhitespace).reverse.dropWhile
    Char.isWhitespace).reverse)

/-- Lowercase a string (model of `str::to_lowercase`; ASCII-faithful). -/
def strToLower (s : String) : String :=
  String.mk (s.data.map Char.toLower)

/-- Split a character list at every occurrence of `c`. -/
def splitChar (c : Char) : List Char → List (List Char)
  | [] => [[]]
  | x :: xs =>
    let rest := splitChar c xs
    if x = c then [] :: rest
    else
      match rest with
      | [] => [[x]]
      | r :: rs => (x :: r) :: rs

/-- Lines of a string (model of `str::lines`: split at `\n`, strip a
trailing `\r` from each line, and ignore a final trailing newline). -/
def rustLines (s : String) : List String :=
  let raw := splitChar (Char.ofNat 10) s.data
  let raw := if raw.getLast? = some [] then raw.dropLast else raw
  raw.map (fun l =>
    if l.getLast? = some (Char.ofNat 13) then String.mk l.dropLast else String.mk l)

/-- Concatenate the images of `f` over a list, in order. -/
def listFlat (f : α → List β) : List α → List β
  | [] => []
  | a :: as => f a ++ listFlat f as

/-! ## Check result model (src/checks/mod.rs) -/

/-- Severity level for check results. -/
inductive Severity where
  | info
  | warning
  | error
deriving DecidableEq

/-- Result of a single check (struct `CheckResult`). -/
structure CheckResult where
  checkName : String
  passed : Bool
  severity : Severity
  message : String
  file : Option String
  line : Option Nat
  fix : Option String
deriving DecidableEq

/-- Create a passing result (`CheckResult::pass`). -/
def CheckResult.pass (checkName message : String) : CheckResult :=
  ⟨checkName, true, Severity.info, message, none, none, none⟩

/-- Create a failing result (`CheckResult::fail`). -/
def CheckResult.fail (checkName : String) (severity : Severity)
    (message : String) : CheckResult :=
  ⟨checkName, false, severity, message, none, none, none⟩

/-- Add a file location (`CheckResult::with_file`). -/
def CheckResult.withFile (r : CheckResult) (file : String) : CheckResult :=
  { r with file := some file }

/-- Add a line number (`CheckResult::with_line`). -/
def CheckResult.withLine (r : CheckResult) (line : Nat) : CheckResult :=
  { r with line := some line }

/-- Add a suggested fix (`CheckResult::with_fix`). -/
def CheckResult.withFix (r : CheckResult) (fix : String) : CheckResult :=
  { r with fix := some fix }

/-- Configuration for checks with thresholds (struct `CheckConfig`). -/
structure CheckConfig where
  maxFileLoc : Nat
  warnFileLoc : Nat
  maxFunctionsPerModule : Nat
  maxModulesPerCrate : Nat
  requiredEdition : String

/-! ## File-system model

`fs::read_dir` order is the declaration order of `FsTree.dir` entries.
Unreadable entries are not modelled: the repository treats them by skipping
or by emitting a per-file result, and no claim depends on them.  A name may
denote a file (with its content) or a directory.
-/

/-- A file-system tree: either a file with contents or a directory. -/
inductive FsTree where
  | file (content : String)
  | dir (entries : List (String × FsTree))

/-- A project directory: its own name plus its root tree. -/
structure Project where
  name : String
  root : FsTree

/-- Whether a tree node is a directory. -/
def FsTree.isDir : FsTree → Bool
  | .dir _ => true
  | .file _ => false

/-- Look up a child entry by name (model of `Path::join` + `exists`);
returns the first entry with that name. -/
def FsTree.lookup : FsTree → String → Option FsTree
  | .file _, _ => none
  | .dir entries, name => (entries.find? (fun e => e.fst = name)).map (·.snd)

/-- Whether a file name has the `.rs` extension. -/
def isRsName (name : String) : Bool :=
  strEndsWith name ".rs"

/-- Whether a file name has the `.md` extension. -/
def isMdName (name : String) : Bool :=
  strEndsWith name ".md"

/-- Recursive walk over a directory's entries, applying `f` to every `.rs`
file.  This is the shared traversal of `check_directory` /
`collect_results` in loc_limits.rs, function_count.rs, test_quality.rs and
clippy_disables.rs (the four Rust modules duplicate the same loop:
recurse into subdirectories, apply the per-file analysis to `.rs` files).
`f` receives the full path, the file name and the content. -/
def walkRs (f : String → String → String → List CheckResult) (dirPath : String) :
    List (String × FsTree) → List CheckResult
  | [] => []
  | (name, FsTree.dir es) :: rest =>
    walkRs f (dirPath ++ "/" ++ name) es ++ walkRs f dirPath rest
  | (name, FsTree.file c) :: rest =>
    (if isRsName name then f (dirPath ++ "/" ++ name) name c else []) ++
      walkRs f dirPath rest

/-- Shared prologue of the four per-file checks: if `src` does not exist
return no results; if it exists but is not a directory, `read_dir` fails and
the traversal also yields no results. -/
def srcCheck (f : String → String → String → List CheckResult)
    (proj : Project) : List CheckResult :=
  match proj.root.lookup "src" with
  | some (FsTree.dir es) => walkRs f (proj.name ++ "/src") es
  | some (FsTree.file _) => []
  | none => []

/-! ## LOC limits check (src/checks/loc_limits.rs) -/

/-- Per-file LOC analysis (`loc_limits::check_file`, with the read already
performed). -/
def locCheckFile (path fileName content : String) (maxLoc warnLoc : Nat) :
    CheckResult :=
  let loc := (rustLines content).length
  if loc > maxLoc then
    ((CheckResult.fail "loc-limits" Severity.error
        (fileName ++ ": " ++ toString loc ++ " lines exceeds max " ++
          toString maxLoc)).withFile path).withFix
      ("Split " ++ fileName ++ " into smaller modules (each under " ++
        toString maxLoc ++ " lines)")
  else if loc > warnLoc then
    ((CheckResult.fail "loc-limits" Severity.warning
        (fileName ++ ": " ++ toString loc ++ " lines exceeds warning threshold " ++
          toString warnLoc)).withFile path).withFix
      "Consider splitting into smaller modules"
  else
    (CheckResult.pass "loc-limits"
      (fileName ++ ": " ++ toString loc ++ " lines (OK)")).withFile path

/-- LOC limits over a project (`loc_limits::check`). -/
def locLimitsCheck (proj : Project) (maxLoc warnLoc : Nat) : List CheckResult :=
  srcCheck (fun path name c => [locCheckFile path name c maxLoc warnLoc]) proj

/-! ## Function count check (src/checks/function_count.rs) -/

/-- Scanner state of `count_functions`: running count, test-module flag,
raw-string flag, brace depth and the depth recorded when the test-module
marker was seen. -/
structure FnScan where
  count : Nat
  inTestModule : Bool
  inRawString : Bool
  braceDepth : Int
  testModuleDepth : Int
deriving DecidableEq

/-- Function-introducer patterns recognised by `count_functions`. -/
def fnPatterns : List String :=
  ["fn ", "pub fn ", "pub(crate) fn ", "pub(super) fn ",
   "async fn ", "pub async fn ", "const fn ", "pub const fn ",
   "unsafe fn ", "pub unsafe fn "]

/-- One step of the character-wise brace loop in `count_functions`.  A
closing brace that returns the depth to (or below) the recorded test-module
depth also ends the test-module scope. -/
def braceStep (st : FnScan) (ch : Char) : FnScan :=
  if ch = '{' then { st with braceDepth := st.braceDepth + 1 }
  else if ch = '}' then
    if st.inTestModule && st.braceDepth - 1 ≤ st.testModuleDepth then
      { st with braceDepth := st.braceDepth - 1, inTestModule := false }
    else { st with braceDepth := st.braceDepth - 1 }
  else st

/-- Per-line transition of `count_functions`: raw-string handling first
(a raw-string line contributes nothing, not even braces), then the
test-module marker, then the brace loop, then the comment/test-scope skip,
and finally the function-pattern count. -/
def fnScanLine (st : FnScan) (line : String) : FnScan :=
  let trimmed := strTrim line
  let st1 := if strContains trimmed "r#\"" then { st with inRawString := true } else st
  if st1.inRawString then
    if strContains trimmed "\"#" then { st1 with inRawString := false } else st1
  else
    let st2 :=
      if strContains trimmed "#[cfg(test)]" then
        { st1 with inTestModule := true, testModuleDepth := st1.braceDepth }
      else st1
    let st3 := line.data.foldl braceStep st2
    if st3.inTestModule || strStartsWith trimmed "//" ||
        strStartsWith trimmed "/*" || strStartsWith trimmed "*" then st3
    else if (fnPatterns.any (fun p => strContains trimmed p)) &&
        strContainsChar trimmed '(' then
      { st3 with count := st3.count + 1 }
    else st3

/-- Initial scanner state of `count_functions`. -/
def fnScanInit : FnScan := ⟨0, false, false, 0, 0⟩

/-- Count function definitions (`function_count::count_functions`). -/
def countFunctions (content : String) : Nat :=
  ((rustLines content).foldl fnScanLine fnScanInit).count

/-- Per-file result of the function-count check. -/
def functionCountFile (path fileName content : String) (maxFunctions : Nat) :
    CheckResult :=
  let functionCount := countFunctions content
  if functionCount > maxFunctions then
    ((CheckResult.fail "function-count" Severity.error
        (fileName ++ ": " ++ toString functionCount ++
          " functions exceeds max " ++ toString maxFunctions)).withFile path).withFix
      ("Split " ++ fileName ++ " into smaller modules with fewer functions")
  else
    (CheckResult.pass "function-count"
      (fileName ++ ": " ++ toString functionCount ++ " functions (OK)")).withFile path

/-- Function count over a project (`function_count::check`). -/
def functionCountCheck (proj : Project) (maxFunctions : Nat) : List CheckResult :=
  srcCheck (fun path name c => [functionCountFile path name c maxFunctions]) proj

/-! ## Module count check (src/checks/module_count.rs) -/

/-- Directories ignored by the walks (`is_ignored_dir`). -/
def isIgnoredDir (name : String) : Bool :=
  name = "target" || name = ".git" || name = "node_modules" || name = ".cargo"

/-- Whether a directory holds any entry with the `.rs` extension
(`module_count::has_rs_files`). -/
def hasRsFiles : FsTree → Bool
  | .file _ => false
  | .dir entries => entries.any (fun e => isRsName e.fst)

/-- Count the modules among a `src` directory's entries: a non-entry-point
`.rs` file, or a subdirectory containing `mod.rs` or any `.rs` entry
(`module_count::count_modules`). -/
def countModulesEntries : List (String × FsTree) → Nat
  | [] => 0
  | (name, FsTree.file _) :: rest =>
    (if isRsName name && name ≠ "main.rs" && name ≠ "lib.rs" && name ≠ "mod.rs"
      then 1 else 0) + countModulesEntries rest
  | (name, FsTree.dir es) :: rest =>
    (if ((FsTree.dir es).lookup "mod.rs").isSome || hasRsFiles (FsTree.dir es)
      then 1 else 0) + countModulesEntries rest

/-- Count the modules of a crate's `src` tree; `read_dir` on a file fails,
giving zero. -/
def countModules : FsTree → Nat
  | .file _ => 0
  | .dir entries => countModulesEntries entries

/-- Result for one crate (`module_count::check_crate`). -/
def checkCrate (srcTree : FsTree) (srcPath crateName : String)
    (maxModules : Nat) : CheckResult :=
  let moduleCount := countModules srcTree
  if moduleCount > maxModules then
    ((CheckResult.fail "module-count" Severity.error
        (crateName ++ ": " ++ toString moduleCount ++ " modules exceeds max " ++
          toString maxModules)).withFile srcPath).withFix
      "Consider splitting into multiple crates or reducing module count"
  else
    (CheckResult.pass "module-count"
      (crateName ++ ": " ++ toString moduleCount ++ " modules (OK)")).withFile srcPath

/-- Workspace member crates (`module_count::check_workspace`, member loop). -/
def workspaceMembers (maxModules : Nat) : List (String × FsTree) → List CheckResult
  | [] => []
  | (name, FsTree.dir es) :: rest =>
    (if !isIgnoredDir name then
      match (FsTree.dir es).lookup "src" with
      | some t => [checkCrate t (name ++ "/src") name maxModules]
      | none => []
     else []) ++ workspaceMembers maxModules rest
  | (_, FsTree.file _) :: rest => workspaceMembers maxModules rest

/-- Workspace mode of the module-count check: optional root crate first,
then the member directories in declaration order. -/
def checkWorkspace (proj : Project) (maxModules : Nat) : List CheckResult :=
  (match proj.root.lookup "src" with
   | some t => [checkCrate t (proj.name ++ "/src") "root" maxModules]
   | none => []) ++
  (match proj.root with
   | .file _ => []
   | .dir entries => workspaceMembers maxModules entries)

/-- Single-crate mode of the module-count check. -/
def moduleCountSingle (proj : Project) (maxModules : Nat) : List CheckResult :=
  match proj.root.lookup "src" with
  | some t =>
    [checkCrate t (proj.name ++ "/src")
      (if proj.name = "" then "crate" else proj.name) maxModules]
  | none => []

/-- Module count over a project (`module_count::check`): workspace mode when
the root manifest is readable and mentions `[workspace]`, single-crate mode
otherwise. -/
def moduleCountCheck (proj : Project) (maxModules : Nat) : List CheckResult :=
  match proj.root.lookup "Cargo.toml" with
  | some (FsTree.file content) =>
    if strContains content "[workspace]" then checkWorkspace proj maxModules
    else moduleCountSingle proj maxModules
  | _ => moduleCountSingle proj maxModules

/-! ## Rust edition check (src/checks/rust_edition.rs)

The `toml` crate is an external collaborator; its parsed document is
modelled by `TomlValue` and the parse step by an oracle
`String → Option TomlValue` (`none` standing for a parse error).  OS error
texts embedded in messages are modelled by fixed strings.
-/

/-- Structured manifest document (model of `toml::Value`). -/
inductive TomlValue where
  | str (s : String)
  | int (n : Int)
  | boolean (b : Bool)
  | table (entries : List (String × TomlValue))

/-- Key lookup on a table (model of `toml::Value::get`). -/
def TomlValue.get : TomlValue → String → Option TomlValue
  | .table entries, key => (entries.find? (fun e => e.fst = key)).map (·.snd)
  | _, _ => none

/-- String view of a value (model of `toml::Value::as_str`). -/
def TomlValue.asStr : TomlValue → Option String
  | .str s => some s
  | _ => none

/-- The declared edition string of a manifest: `package.edition`, read as a
string (the `let edition` of `check_edition_value`). -/
def editionOf (toml : TomlValue) : Option String :=
  ((toml.get "package").bind (fun p => p.get "edition")).bind TomlValue.asStr

/-- Compare the declared edition against the required one
(`rust_edition::check_edition_value`). -/
def checkEditionValue (toml : TomlValue) (relPath filePath required : String) :
    CheckResult :=
  match editionOf toml with
  | some e =>
    if e = required then
      (CheckResult.pass "rust-edition"
        (relPath ++ ": Using Rust " ++ required ++ " edition")).withFile filePath
    else
      ((CheckResult.fail "rust-edition" Severity.error
          (relPath ++ ": Using edition \x27" ++ e ++ "\x27, expected \x27" ++
            required ++ "\x27")).withFile filePath).withFix
        ("Change edition = \"" ++ e ++ "\" to edition = \"" ++ required ++ "\"")
  | none =>
    if (toml.get "workspace").isSome && (toml.get "package").isNone then
      (CheckResult.pass "rust-edition"
        (relPath ++ ": Workspace root (no edition required)")).withFile filePath
    else
      ((CheckResult.fail "rust-edition" Severity.error
          (relPath ++ ": No edition specified")).withFile filePath).withFix
        ("Add edition = \"" ++ required ++ "\" to [package] section")

/-- Manifests found in subdirectories (second half of
`rust_edition::find_cargo_files`). -/
def subdirCargoEntries : List (String × FsTree) → List (String × FsTree)
  | [] => []
  | (name, FsTree.dir es) :: rest =>
    (if !isIgnoredDir name then
      match (FsTree.dir es).lookup "Cargo.toml" with
      | some t => [(name ++ "/Cargo.toml", t)]
      | none => []
     else []) ++ subdirCargoEntries rest
  | (_, FsTree.file _) :: rest => subdirCargoEntries rest

/-- All manifests of a project: root first, then non-ignored subdirectories
(`rust_edition::find_cargo_files`); each paired with its tree node. -/
def findCargoEntries (proj : Project) : List (String × FsTree) :=
  (match proj.root.lookup "Cargo.toml" with
   | some t => [(proj.name ++ "/Cargo.toml", t)]
   | none => []) ++
  (match proj.root with
   | .file _ => []
   | .dir entries => subdirCargoEntries entries)

/-- Analyse one manifest (`rust_edition::check_cargo_toml`): read, parse,
then compare the edition; an unreadable manifest node (a directory) or an
unparsable one is an Error. -/
def checkCargoToml (parse : String → Option TomlValue) (required path : String) :
    FsTree → CheckResult
  | FsTree.dir _ =>
    (CheckResult.fail "rust-edition" Severity.error
      "Failed to read: is a directory").withFile path
  | FsTree.file content =>
    match parse content with
    | some toml => checkEditionValue toml "Cargo.toml" path required
    | none =>
      (CheckResult.fail "rust-edition" Severity.error "Invalid TOML").withFile path

/-- Rust edition over a project (`rust_edition::check`): a single Warning
when no manifest exists, one result per manifest otherwise. -/
def rustEditionCheck (parse : String → Option TomlValue) (proj : Project)
    (required : String) : List CheckResult :=
  let cargoFiles := findCargoEntries proj
  if cargoFiles.isEmpty then
    [CheckResult.fail "rust-edition" Severity.warning "No Cargo.toml found"]
  else
    cargoFiles.map (fun e => checkCargoToml parse required e.fst e.snd)

/-! ## Test quality check (src/checks/test_quality.rs) -/

/-- Patterns that indicate a trivial or placeholder test
(`test_quality::TRIVIAL_PATTERNS`). -/
def TRIVIAL_PATTERNS : List String :=
  ["assert!(true)", "assert_eq!(1, 1)", "assert_eq!(true, true)",
   "assert_ne!(1, 2)", "assert_ne!(true, false)", "todo!()",
   "unimplemented!()", "panic!(\"not implemented\")",
   "panic!(\"not yet implemented\")"]

/-- Scanner state of `test_quality::analyze_file`. -/
structure TqState where
  inTestFunction : Bool
  inRawString : Bool
  testStartLine : Nat
  testName : String
  braceDepth : Int
  testBraceDepth : Int
deriving DecidableEq

/-- Initial scanner state of `analyze_file`. -/
def tqInit : TqState := ⟨false, false, 0, "", 0, 0⟩

/-- One character of the brace loop in `analyze_file`: a closing brace that
returns the depth to (or below) the recorded depth of a named test function
ends that test function. -/
def tqBraceStep (st : TqState) (ch : Char) : TqState :=
  if ch = '{' then { st with braceDepth := st.braceDepth + 1 }
  else if ch = '}' then
    let st1 := { st with braceDepth := st.braceDepth - 1 }
    if st1.inTestFunction && st1.testName ≠ "" &&
        st1.braceDepth ≤ st1.testBraceDepth then
      { st1 with inTestFunction := false, testName := "" }
    else st1
  else st

/-- The Warning emitted for a trivial pattern found inside a test. -/
def tqFinding (path pat testName : String) (lineNumber testStartLine : Nat) :
    CheckResult :=
  (((CheckResult.fail "test-quality" Severity.warning
      ("Trivial test pattern \x27" ++ pat ++ "\x27 in test \x27" ++
        testName ++ "\x27")).withFile path).withLine lineNumber).withFix
    ("Replace trivial assertion with meaningful test logic in \x27" ++
      testName ++ "\x27 (started at line " ++ toString testStartLine ++ ")")

/-- The pattern loop of `analyze_file` on one trimmed line inside a named
test function: one Warning per matching trivial pattern, in pattern order. -/
def tqLineFindings (path trimmed testName : String)
    (lineNumber testStartLine : Nat) : List CheckResult :=
  listFlat (fun pat =>
    if strContains trimmed pat then
      [tqFinding path pat testName lineNumber testStartLine]
    else []) TRIVIAL_PATTERNS

/-- One line of `analyze_file`: raw-string handling, the `#[test]` marker,
test-name capture, the brace loop, then the trivial-pattern matches inside
a named test function. -/
def tqLine (path : String) (st : TqState) (lineNum : Nat) (line : String) :
    TqState × List CheckResult :=
  let trimmed := strTrim line
  let lineNumber := lineNum + 1
  let st1 := if strContains trimmed "r#\"" then { st with inRawString := true } else st
  if st1.inRawString then
    (if strContains trimmed "\"#" then { st1 with inRawString := false } else st1, [])
  else if trimmed = "#[test]" then
    ({ st1 with inTestFunction := true, testStartLine := lineNumber }, [])
  else
    let st2 :=
      if st1.inTestFunction && st1.testName = "" && strContains trimmed "fn " then
        match findSub "fn ".data trimmed.data with
        | some p =>
          let tail := trimmed.data.drop (p + 3)
          match findSub [Char.ofNat 40] tail with
          | some e =>
            { st1 with testName := strTrim (String.mk (tail.take e)),
                       testBraceDepth := st1.braceDepth }
          | none => st1
        | none => st1
      else st1
    let st3 := line.data.foldl tqBraceStep st2
    let results :=
      if st3.inTestFunction && st3.testName ≠ "" then
        tqLineFindings path trimmed st3.testName lineNumber st3.testStartLine
      else []
    (st3, results)

/-- Fold of `analyze_file` over the enumerated lines. -/
def tqRun (path : String) : TqState → List (Nat × String) → List CheckResult
  | _, [] => []
  | st, (n, line) :: rest =>
    let step := tqLine path st n line
    step.snd ++ tqRun path step.fst rest

/-- Findings of `test_quality::analyze_file` for one file. -/
def analyzeFile (path content : String) : List CheckResult :=
  tqRun path tqInit (rustLines content).enum

/-- Per-file results of the test-quality check: the findings, or a single
pass when there are none. -/
def tqFile (path fileName content : String) : List CheckResult :=
  let fileResults := analyzeFile path content
  if fileResults.isEmpty then
    [(CheckResult.pass "test-quality"
      (fileName ++ ": No trivial tests found")).withFile path]
  else fileResults

/-- Test quality over a project (`test_quality::check`). -/
def testQualityCheck (proj : Project) : List CheckResult :=
  srcCheck tqFile proj

/-! ## Clippy disables check (src/checks/clippy_disables.rs) -/

/-- Patterns that suppress lints (`clippy_disables::SUPPRESS_PATTERNS`). -/
def SUPPRESS_PATTERNS : List String :=
  ["#[allow(", "#![allow(", "#[cfg_attr("]

/-- Allowed suppressions (`clippy_disables::ALLOWED_SUPPRESSIONS`). -/
def ALLOWED_SUPPRESSIONS : List String :=
  ["dead_code", "unused"]

/-- Extract the lint name from a suppression attribute
(`clippy_disables::extract_lint_name`). -/
def extractLintName (line : String) : String :=
  match findSub "allow(".data line.data with
  | some p =>
    let rest := line.data.drop (p + 6)
    match findSub [Char.ofNat 41] rest with
    | some e => strTrim (String.mk (rest.take e))
    | none => ""
  | none => ""

/-- Whether a lint name is on the allow-list
(`clippy_disables::is_allowed_suppression`). -/
def isAllowedSuppression (lintName : String) : Bool :=
  ALLOWED_SUPPRESSIONS.any (fun allowed => strContains lintName allowed)

/-- Findings for one (trimmed) line of the clippy-disables check: one result
per matching suppression pattern, Error severity when the lint is namespaced
to clippy, Warning otherwise. -/
def clippyLineResults (path fileName trimmed : String) (lineNumber : Nat) :
    List CheckResult :=
  listFlat (fun pat =>
    if strContains trimmed pat then
      if pat = "#[cfg_attr(" && !strContains trimmed "allow(" then []
      else if isAllowedSuppression (extractLintName trimmed) then []
      else
        [(((CheckResult.fail "clippy-disables"
            (if strStartsWith (extractLintName trimmed) "clippy::" then
              Severity.error
            else Severity.warning)
            (fileName ++ ": Lint suppression found: " ++ trimmed)).withFile
            path).withLine lineNumber).withFix
          "Remove the #[allow(...)] and fix the underlying issue instead"]
    else []) SUPPRESS_PATTERNS

/-- Fold of `clippy_disables::check_file` over the enumerated lines, with
the raw-string flag as state. -/
def clippyRun (path fileName : String) : Bool → List (Nat × String) → List CheckResult
  | _, [] => []
  | inRaw, (n, line) :: rest =>
    let trimmed := strTrim line
    let inRaw1 := if strContains trimmed "r#\"" then true else inRaw
    if inRaw1 then
      clippyRun path fileName (!strContains trimmed "\"#") rest
    else if strStartsWith trimmed "//" then
      clippyRun path fileName inRaw1 rest
    else
      clippyLineResults path fileName trimmed (n + 1) ++
        clippyRun path fileName inRaw1 rest

/-- Per-file results of the clippy-disables check (`check_file`): the
findings, or a single pass when there are none. -/
def clippyFile (path fileName content : String) : List CheckResult :=
  let fileResults := clippyRun path fileName false (rustLines content).enum
  if fileResults.isEmpty then
    [(CheckResult.pass "clippy-disables"
      (fileName ++ ": No lint suppressions found")).withFile path]
  else fileResults

/-- Clippy disables over a project (`clippy_disables::check`). -/
def clippyDisablesCheck (proj : Project) : List CheckResult :=
  srcCheck clippyFile proj

/-! ## Cache busting check (src/checks/cache_busting.rs) -/

/-- Image extensions to check for (`cache_busting::IMAGE_EXTENSIONS`). -/
def IMAGE_EXTENSIONS : List String :=
  [".png", ".jpg", ".jpeg", ".gif", ".svg", ".webp"]

/-- The cache-busting patterns the code recognises
(`cache_busting::has_cache_busting`, local `patterns`). -/
def cacheBustingPatterns : List String :=
  ["?v=", "?ts=", "?t=", "?version=", "?hash=", "&v=", "&ts="]

/-- Whether a link carries a recognised cache-busting parameter
(`cache_busting::has_cache_busting`). -/
def hasCacheBusting (link : String) : Bool :=
  cacheBustingPatterns.any (fun p => strContains link p)

/-- Markdown image links of one line: the first scanning loop of
`cache_busting::extract_image_links`. -/
def mdImageLinks (rem : List Char) : List String :=
  match h : findSub "![".data rem with
  | none => []
  | some start =>
    let afterAlt := rem.drop (start + 2)
    (match findSub "](".data afterAlt with
     | none => []
     | some ps =>
       let pathStart := afterAlt.drop (ps + 2)
       match findSub [Char.ofNat 41] pathStart with
       | none => []
       | some pe => [String.mk (pathStart.take pe)]) ++
    mdImageLinks (rem.drop (start + 2))
termination_by rem.length
decreasing_by
  rcases rem with _ | ⟨c, cs⟩
  · simp [findSub, isPrefixL] at h
  · simp [List.length_drop]
    omega

/-- HTML `img src` attribute links of one line, for one quote character:
the second and third scanning loops of `extract_image_links`. -/
def srcAttrLinks (quote : Char) (rem : List Char) : List String :=
  match h : findSub ("src=".data ++ [quote]) rem with
  | none => []
  | some start =>
    let pathStart := rem.drop (start + 5)
    (match findSub [quote] pathStart with
     | none => []
     | some qe => [String.mk (pathStart.take qe)]) ++
    srcAttrLinks quote (rem.drop (start + 5))
termination_by rem.length
decreasing_by
  rcases rem with _ | ⟨c, cs⟩
  · simp [findSub, isPrefixL] at h
  · simp [List.length_drop]
    omega

/-- Local and remote image references of one line
(`cache_busting::extract_image_links`): markdown syntax first, then
double-quoted, then single-quoted `src` attributes. -/
def extractImageLinks (line : String) : List String :=
  mdImageLinks line.data ++ srcAttrLinks (Char.ofNat 34) line.data ++
    srcAttrLinks (Char.ofNat 39) line.data

/-- Whether `check_readme` flags an extracted link: not an external URL, has
an image extension, and lacks a recognised cache-busting parameter (the body
of the per-link loop of `cache_busting::check_readme`). -/
def linkFlagged (link : String) : Bool :=
  if strStartsWith link "http://" || strStartsWith link "https://" then false
  else if !(IMAGE_EXTENSIONS.any (fun ext => strContains (strToLower link) ext)) then
    false
  else !hasCacheBusting link

/-- The Warning emitted for a flagged link. -/
def cacheBustingFailure (path fileName link : String) (lineNumber : Nat) :
    CheckResult :=
  (((CheckResult.fail "cache-busting" Severity.warning
      (fileName ++ ": Image link without cache-busting: " ++ link)).withFile
      path).withLine lineNumber).withFix
    ("Add cache-busting parameter: " ++ link ++ "?v=<version> or " ++ link ++
      "?ts=<timestamp>")

/-- Findings of `cache_busting::check_readme` on file content, or a single
pass when no link is flagged. -/
def checkReadmeContent (path fileName content : String) : List CheckResult :=
  let issues := listFlat (fun p =>
    listFlat (fun link =>
      if linkFlagged link then [cacheBustingFailure path fileName link (p.fst + 1)]
      else []) (extractImageLinks p.snd)) (rustLines content).enum
  if issues.isEmpty then
    [(CheckResult.pass "cache-busting"
      (fileName ++ ": All image links have cache-busting")).withFile path]
  else issues

/-- `check_readme` on a tree node: a directory cannot be read as a string
and yields the read-error Warning. -/
def checkReadme (path fileName : String) : FsTree → List CheckResult
  | FsTree.file content => checkReadmeContent path fileName content
  | FsTree.dir _ =>
    [(CheckResult.fail "cache-busting" Severity.warning
      "Read error: is a directory").withFile path]

/-- README file names probed at the project root
(`cache_busting::check`, local `readme_names`). -/
def readmeNames : List String := ["README.md", "readme.md", "Readme.md"]

/-- The README loop of `cache_busting::check`, threading the set of
canonical paths already checked (canonicalisation is modelled as the full
path; the model file system has no aliasing). -/
def cacheReadmeLoop (proj : Project) :
    List String → List String → List String × List CheckResult
  | visited, [] => (visited, [])
  | visited, name :: rest =>
    match proj.root.lookup name with
    | some t =>
      let canonical := proj.name ++ "/" ++ name
      if visited.contains canonical then cacheReadmeLoop proj visited rest
      else
        let step := cacheReadmeLoop proj (canonical :: visited) rest
        (step.fst, checkReadme canonical name t ++ step.snd)
    | none => cacheReadmeLoop proj visited rest

/-- The docs-directory loop of `cache_busting::check`. -/
def cacheDocsLoop (projName : String) :
    List String → List (String × FsTree) → List CheckResult
  | _, [] => []
  | visited, (name, t) :: rest =>
    if isMdName name then
      let canonical := projName ++ "/docs/" ++ name
      if visited.contains canonical then cacheDocsLoop projName visited rest
      else checkReadme canonical name t ++
        cacheDocsLoop projName (canonical :: visited) rest
    else cacheDocsLoop projName visited rest

/-- Cache busting over a project (`cache_busting::check`): README files,
then markdown files under `docs`, with a global pass when nothing was
examined. -/
def cacheBustingCheck (proj : Project) : List CheckResult :=
  let readmeStep := cacheReadmeLoop proj [] readmeNames
  let docsResults :=
    match proj.root.lookup "docs" with
    | some (FsTree.dir entries) => cacheDocsLoop proj.name readmeStep.fst entries
    | _ => []
  let results := readmeStep.snd ++ docsResults
  if results.isEmpty then
    [CheckResult.pass "cache-busting" "No markdown files with images found"]
  else results

/-! ## Orchestrator (src/commands/checks.rs) -/

/-- Whether a check name is selected by the comma-separated filter
(`run_selected_checks`, locals `filter` / `should_run`). -/
def shouldRunCheck (only : Option String) (name : String) : Bool :=
  match only with
  | none => true
  | some s => ((splitChar ',' s.data).map (fun l => strTrim (String.mk l))).contains name

/-- Run the selected checks and concatenate their results in the fixed
source order (`commands::checks::run_selected_checks`). -/
def runSelectedChecks (parse : String → Option TomlValue) (proj : Project)
    (config : CheckConfig) (only : Option String) : List CheckResult :=
  (if shouldRunCheck only "rust-edition" then
    rustEditionCheck parse proj config.requiredEdition else []) ++
  (if shouldRunCheck only "loc-limits" then
    locLimitsCheck proj config.maxFileLoc config.warnFileLoc else []) ++
  (if shouldRunCheck only "function-count" then
    functionCountCheck proj config.maxFunctionsPerModule else []) ++
  (if shouldRunCheck only "module-count" then
    moduleCountCheck proj config.maxModulesPerCrate else []) ++
  (if shouldRunCheck only "test-quality" then testQualityCheck proj else []) ++
  (if shouldRunCheck only "clippy-disables" then clippyDisablesCheck proj else []) ++
  (if shouldRunCheck only "cache-busting" then cacheBustingCheck proj else [])

/-! ## Host pool (src/config.rs) -/

/-- An Ollama host configuration (struct `OllamaHost`). -/
structure OllamaHost where
  name : String
  baseUrl : String
  enabled : Bool
  fallback : Bool
  description : Option String
deriving DecidableEq

/-- The host pool of a configuration (`GuardianConfig`, restricted to the
`ollama.hosts` list that host resolution reads). -/
structure GuardianConfig where
  hosts : List OllamaHost
deriving DecidableEq

/-- Enabled non-fallback hosts in declaration order
(`GuardianConfig::primary_hosts`). -/
def GuardianConfig.primaryHosts (cfg : GuardianConfig) : List OllamaHost :=
  cfg.hosts.filter (fun h => h.enabled && !h.fallback)

/-- Enabled fallback hosts in declaration order
(`GuardianConfig::fallback_hosts`). -/
def GuardianConfig.fallbackHosts (cfg : GuardianConfig) : List OllamaHost :=
  cfg.hosts.filter (fun h => h.enabled && h.fallback)

/-- All enabled hosts, primaries first (`GuardianConfig::enabled_hosts`). -/
def GuardianConfig.enabledHosts (cfg : GuardianConfig) : List OllamaHost :=
  cfg.primaryHosts ++ cfg.fallbackHosts

/-! ## Ollama client (src/ollama.rs)

The HTTP transport is an external collaborator.  A probe's network call is
modelled by an oracle giving, per host, either a response (status code and
measured latency) or a transport failure with a message; the model-listing
call is a second oracle.  `reqwest` status rendering is modelled as the
status number.
-/

/-- A model available on a host (struct `OllamaModel`). -/
structure OllamaModel where
  name : String
  modifiedAt : Option String
  size : Option Nat
  digest : Option String
deriving DecidableEq

/-- Result of pinging a host (struct `PingResult`). -/
structure PingResult where
  host : OllamaHost
  reachable : Bool
  latencyMs : Option Nat
  error : Option String
deriving DecidableEq

/-- Outcome of one HTTP `GET` as seen by `ping_host`: a response with its
status and elapsed time, or a transport error. -/
inductive HttpOutcome where
  | ok (status : Nat) (latencyMs : Nat)
  | err (msg : String)
deriving DecidableEq

/-- Probe one host (`OllamaClient::ping_host`): a 200 response is reachable
with its latency; any other response is unreachable but keeps the latency
and records the status; a transport error is unreachable with no latency. -/
def pingHost (net : OllamaHost → HttpOutcome) (host : OllamaHost) : PingResult :=
  match net host with
  | .ok status lat =>
    if status = 200 then ⟨host, true, some lat, none⟩
    else ⟨host, false, some lat, some ("HTTP status: " ++ toString status)⟩
  | .err e => ⟨host, false, none, some e⟩

/-- Probe a list of hosts (`OllamaClient::ping_hosts`): all probes are
issued and `join_all` collects their results in input order, so the bulk
result is the input-order map of the per-host probe. -/
def pingHosts (net : OllamaHost → HttpOutcome) (hosts : List OllamaHost) :
    List PingResult :=
  hosts.map (pingHost net)

/-! ## Host selection (src/commands/host.rs) -/

/-- Probe one candidate (`commands::host::try_host`): reachable, and when a
model is required, the model-listing call must succeed and list it. -/
def tryHost (pingNet : OllamaHost → HttpOutcome)
    (listNet : OllamaHost → Except String (List OllamaModel))
    (host : OllamaHost) (requiredModel : Option String) : Option OllamaHost :=
  if !(pingHost pingNet host).reachable then none
  else
    match requiredModel with
    | some model =>
      match listNet host with
      | .ok models => if models.any (fun m => m.name = model) then some host else none
      | .error _ => none
    | none => some host

/-- The candidate loop of `commands::host::select_host`. -/
def selectHostLoop (pingNet : OllamaHost → HttpOutcome)
    (listNet : OllamaHost → Except String (List OllamaModel))
    (requiredModel : Option String) : List OllamaHost → Option OllamaHost
  | [] => none
  | host :: rest =>
    match tryHost pingNet listNet host requiredModel with
    | some h => some h
    | none => selectHostLoop pingNet listNet requiredModel rest

/-- Select the best available host (`commands::host::select_host`): primary
hosts first, then fallbacks; `none` models the distinguished "No suitable
hosts available" failure. -/
def selectHost (pingNet : OllamaHost → HttpOutcome)
    (listNet : OllamaHost → Except String (List OllamaModel))
    (cfg : GuardianConfig) (requiredModel : Option String) : Option OllamaHost :=
  selectHostLoop pingNet listNet requiredModel (cfg.primaryHosts ++ cfg.fallbackHosts)

/-! ## Specification-side host resolution

Written from the spec's words ("iterate primary hosts in declaration order,
then fallback hosts in declaration order; ... the first host that responds
successfully (and, if a required capability/model name was specified,
advertises that capability) is selected; if none qualify, resolution
fails"), for comparison with `selectHost` above.
-/

/-- Spec-side qualification of one host: its probe reports it reachable and,
when a model name is required, its model listing succeeds and includes the
name. -/
def hostQualifies (pingNet : OllamaHost → HttpOutcome)
    (listNet : OllamaHost → Except String (List OllamaModel))
    (requiredModel : Option String) (host : OllamaHost) : Bool :=
  (pingHost pingNet host).reachable &&
    match requiredModel with
    | none => true
    | some model =>
      match listNet host with
      | .ok models => models.any (fun m => m.name = model)
      | .error _ => false

/-- Spec-side resolution: the first qualifying host of the declaration-order
list of enabled primaries followed by enabled fallbacks. -/
def specResolveHost (pingNet : OllamaHost → HttpOutcome)
    (listNet : OllamaHost → Except String (List OllamaModel))
    (cfg : GuardianConfig) (requiredModel : Option String) : Option OllamaHost :=
  (cfg.hosts.filter (fun h => h.enabled && !h.fallback) ++
    cfg.hosts.filter (fun h => h.enabled && h.fallback)).find?
    (hostQualifies pingNet listNet requiredModel)

/-! ## Specification-side predicates and concrete fixtures -/

/-- Invariant of a check result: branded with its producing check's name,
Info severity exactly on pass, Warning or Error on failure. -/
def ResOK (name : String) (r : CheckResult) : Prop :=
  r.checkName = name ∧
  (r.passed = true → r.severity = Severity.info) ∧
  (r.passed = false → r.severity = Severity.warning ∨ r.severity = Severity.error)

/-- The cache-busting patterns the spec claims are recognised: each of the
five keys both as first (`?k=`) and as appended (`&k=`) parameter. -/
def claimedCacheBustingPatterns : List String :=
  ["?v=", "?ts=", "?t=", "?version=", "?hash=",
   "&v=", "&ts=", "&t=", "&version=", "&hash="]

/-- The claim's classification of checks: manifest level (0), per-file (1),
documentation (2). -/
def claimClassOf (name : String) : Nat :=
  if name = "rust-edition" || name = "module-count" then 0
  else if name = "loc-limits" || name = "function-count" ||
    name = "test-quality" || name = "clippy-disables" then 1
  else 2

/-- The actual position of each check in the orchestrator's fixed order. -/
def amendedOrderIndex (name : String) : Nat :=
  if name = "rust-edition" then 0
  else if name = "loc-limits" then 1
  else if name = "function-count" then 2
  else if name = "module-count" then 3
  else if name = "test-quality" then 4
  else if name = "clippy-disables" then 5
  else 6

/-- The default threshold bundle (`CheckConfig::default`). -/
def defaultCheckConfig : CheckConfig :=
  ⟨500, 350, 7, 4, "2024"⟩

/-- A parse oracle that reads every manifest as
`[package] edition = "2024"`. -/
def stubParse : String → Option TomlValue :=
  fun _ => some (TomlValue.table
    [("package", TomlValue.table [("edition", TomlValue.str "2024")])])

/-- A small single-crate project with a manifest and two source files. -/
def orderProject : Project :=
  ⟨"proj", FsTree.dir
    [("Cargo.toml", FsTree.file "[package]\nname = \"proj\"\nedition = \"2024\"\n"),
     ("src", FsTree.dir
       [("main.rs", FsTree.file "fn main() \x7b\x7d\n"),
        ("util.rs", FsTree.file "")])]⟩

/-- A project whose root directory is empty. -/
def emptyProject : Project :=
  ⟨"empty", FsTree.dir []⟩

/-- File content with a test module holding a nested helper function. -/
def testModuleContent : String :=
  "#[cfg(test)]\nmod tests \x7b\nfn helper() \x7b\x7d\n\x7d\nfn outer() \x7b\x7d\n"

/-- Scanner states of `count_functions` before each line and after the last
line (state `i` is the state in which line `i` is processed). -/
def fnStatesFrom (st : FnScan) : List String → List FnScan
  | [] => [st]
  | l :: ls => st :: fnStatesFrom (fnScanLine st l) ls

/-- A manifest declaring edition 2024. -/
def tomlPkg2024 : TomlValue :=
  TomlValue.table [("package", TomlValue.table [("edition", TomlValue.str "2024")])]

/-- A workspace-root manifest with no package section. -/
def tomlWorkspaceOnly : TomlValue :=
  TomlValue.table [("workspace", TomlValue.table [])]

/-- A manifest with a package section but no edition. -/
def tomlPkgNoEdition : TomlValue :=
  TomlValue.table [("package", TomlValue.table [])]

/-- A parse oracle on which every manifest is unparsable. -/
def noParse : String → Option TomlValue := fun _ => none

/-! ## Basic lemmas about the result model and strings -/

/-- A result builder changes only the `file` field. -/
@[simp] theorem withFile_checkName (r : CheckResult) (f : String) :
    (r.withFile f).checkName = r.checkName := rfl

/-- The `file` builder preserves `passed`. -/
@[simp] theorem withFile_passed (r : CheckResult) (f : String) :
    (r.withFile f).passed = r.passed := rfl

/-- The `file` builder preserves `severity`. -/
@[simp] theorem withFile_severity (r : CheckResult) (f : String) :
    (r.withFile f).severity = r.severity := rfl

/-- The `file` builder preserves `fix`. -/
@[simp] theorem withFile_fix (r : CheckResult) (f : String) :
    (r.withFile f).fix = r.fix := rfl

/-- The `line` builder preserves `checkName`. -/
@[simp] theorem withLine_checkName (r : CheckResult) (n : Nat) :
    (r.withLine n).checkName = r.checkName := rfl

/-- The `line` builder preserves `passed`. -/
@[simp] theorem withLine_passed (r : CheckResult) (n : Nat) :
    (r.withLine n).passed = r.passed := rfl

/-- The `line` builder preserves `severity`. -/
@[simp] theorem withLine_severity (r : CheckResult) (n : Nat) :
    (r.withLine n).severity = r.severity := rfl

/-- The `fix` builder preserves `checkName`. -/
@[simp] theorem withFix_checkName (r : CheckResult) (f : String) :
    (r.withFix f).checkName = r.checkName := rfl

/-- The `fix` builder preserves `passed`. -/
@[simp] theorem withFix_passed (r : CheckResult) (f : String) :
    (r.withFix f).passed = r.passed := rfl

/-- The `fix` builder preserves `severity`. -/
@[simp] theorem withFix_severity (r : CheckResult) (f : String) :
    (r.withFix f).severity = r.severity := rfl

/-- The `fix` builder sets the `fix` field. -/
@[simp] theorem withFix_fix (r : CheckResult) (f : String) :
    (r.withFix f).fix = some f := rfl

/-- A passing result is branded passing. -/
@[simp] theorem pass_passed (n m : String) : (CheckResult.pass n m).passed = true := rfl

/-- A passing result has Info severity. -/
@[simp] theorem pass_severity (n m : String) :
    (CheckResult.pass n m).severity = Severity.info := rfl

/-- A passing result carries its check's name. -/
@[simp] theorem pass_checkName (n m : String) :
    (CheckResult.pass n m).checkName = n := rfl

/-- A failing result is branded failing. -/
@[simp] theorem fail_passed (n : String) (s : Severity) (m : String) :
    (CheckResult.fail n s m).passed = false := rfl

/-- A failing result keeps the given severity. -/
@[simp] theorem fail_severity (n : String) (s : Severity) (m : String) :
    (CheckResult.fail n s m).severity = s := rfl

/-- A failing result carries its check's name. -/
@[simp] theorem fail_checkName (n : String) (s : Severity) (m : String) :
    (CheckResult.fail n s m).checkName = n := rfl

/-- A pattern is a prefix of itself followed by anything. -/
theorem isPrefixL_append_self (pat ys : List Char) :
    isPrefixL pat (pat ++ ys) = true := by
  induction pat with
  | nil => rfl
  | cons p ps ih => simp [isPrefixL, ih]

/-- A prefix occurrence makes the search succeed. -/
theorem findSub_isSome_of_isPrefixL (pat s : List Char)
    (h : isPrefixL pat s = true) : (findSub pat s).isSome = true := by
  cases s <;> simp [findSub, h]

/-- The search finds a pattern placed anywhere in the middle. -/
theorem findSub_isSome_append (pat xs ys : List Char) :
    (findSub pat (xs ++ (pat ++ ys))).isSome = true := by
  induction xs with
  | nil => exact findSub_isSome_of_isPrefixL _ _ (isPrefixL_append_self pat ys)
  | cons x xs ih =>
    rw [List.cons_append, findSub]
    split_ifs with h
    · rfl
    · simpa using ih

/-- String containment of an explicitly embedded substring. -/
theorem strContains_append_middle (a pat b : String) :
    strContains (a ++ pat ++ b) pat = true := by
  unfold strContains
  have hd : (a ++ pat ++ b).data = a.data ++ (pat.data ++ b.data) := by
    rw [String.data_append, String.data_append, List.append_assoc]
  rw [hd]
  exact findSub_isSome_append _ _ _

/-- Membership in a flattened image. -/
theorem mem_listFlat {α β : Type} {f : α → List β} {l : List α} {b : β} :
    b ∈ listFlat f l ↔ ∃ a ∈ l, b ∈ f a := by
  induction l with
  | nil => simp [listFlat]
  | cons x xs ih => simp [listFlat, ih]

/-! ## Theorems: probing (claims C5, C6) -/

/-- C5: `ping_host` always returns a normal `PingResult` (it is a total
function of the probe outcome) whose shape is exactly one of: reachable with
latency and no error; a non-success response, unreachable with latency and a
status error; or a transport failure, unreachable with no latency and an
error.  Latency is present iff a response was received, and an error is
present iff the host is not reachable. -/
theorem ping_host_outcomes (net : OllamaHost → HttpOutcome) (host : OllamaHost) :
    ((pingHost net host).reachable = true ∧
        ((pingHost net host).latencyMs).isSome = true ∧
        (pingHost net host).error = none ∨
      (pingHost net host).reachable = false ∧
        ((pingHost net host).latencyMs).isSome = true ∧
        ((pingHost net host).error).isSome = true ∨
      (pingHost net host).reachable = false ∧
        (pingHost net host).latencyMs = none ∧
        ((pingHost net host).error).isSome = true) ∧
    (((pingHost net host).latencyMs).isSome = true ↔
      ∃ status lat, net host = HttpOutcome.ok status lat) ∧
    (((pingHost net host).error).isSome = true ↔
      (pingHost net host).reachable = false) := by
  cases hnet : net host with
  | ok status lat =>
    by_cases h200 : status = 200 <;>
      simp [pingHost, hnet, h200]
  | err e =>
    simp [pingHost, hnet]

/-- C6: `ping_hosts` over N hosts returns exactly N results, and the i-th
result is the probe outcome of the i-th input host; a host's probe failure
only affects its own slot. -/
theorem ping_hosts_pointwise (net : OllamaHost → HttpOutcome)
    (hosts : List OllamaHost) :
    (pingHosts net hosts).length = hosts.length ∧
    ∀ i : Nat, (pingHosts net hosts).get? i = (hosts.get? i).map (pingHost net) := by
  refine ⟨by simp [pingHosts], fun i => ?_⟩
  simp [pingHosts]

/-! ## Theorems: host selection (claim C1) -/

/-- Helper: `try_host` accepts a host exactly when it qualifies, and then
returns that very host. -/
theorem tryHost_eq_qualifies (pingNet : OllamaHost → HttpOutcome)
    (listNet : OllamaHost → Except String (List OllamaModel))
    (host : OllamaHost) (requiredModel : Option String) :
    tryHost pingNet listNet host requiredModel =
      if hostQualifies pingNet listNet requiredModel host then some host
      else none := by
  unfold tryHost hostQualifies
  cases hr : (pingHost pingNet host).reachable
  · simp
  · cases requiredModel with
    | none => simp
    | some model =>
      cases hl : listNet host with
      | ok models => by_cases hm : models.any (fun m => m.name = model) <;> simp [hm]
      | error e => simp

/-- Helper: the candidate loop of `select_host` is first-match search. -/
theorem selectHostLoop_eq_find (pingNet : OllamaHost → HttpOutcome)
    (listNet : OllamaHost → Except String (List OllamaModel))
    (requiredModel : Option String) (l : List OllamaHost) :
    selectHostLoop pingNet listNet requiredModel l =
      l.find? (hostQualifies pingNet listNet requiredModel) := by
  induction l with
  | nil => rfl
  | cons host rest ih =>
    rw [selectHostLoop, tryHost_eq_qualifies]
    by_cases hq : hostQualifies pingNet listNet requiredModel host <;>
      simp [hq, List.find?, ih]

/-- C1: host selection equals the spec-side resolution: probe the enabled
primary hosts in declaration order, then the enabled fallback hosts in
declaration order, and pick the first that is reachable and (when a model is
required) lists that model; when no host qualifies the result is the
distinguished no-suitable-host failure (`none`), not a per-host error. -/
theorem select_host_resolves_in_priority_order
    (pingNet : OllamaHost → HttpOutcome)
    (listNet : OllamaHost → Except String (List OllamaModel))
    (cfg : GuardianConfig) (requiredModel : Option String) :
    selectHost pingNet listNet cfg requiredModel =
      specResolveHost pingNet listNet cfg requiredModel := by
  unfold selectHost specResolveHost GuardianConfig.primaryHosts
    GuardianConfig.fallbackHosts
  exact selectHostLoop_eq_find pingNet listNet requiredModel _

/-! ## Theorems: LOC thresholds (claim C4) -/

/-- C4: the per-file LOC analysis is a three-band threshold test: at most
the warning threshold passes (Info), above it but at most the max is a
Warning failure, above the max is an Error failure.  In particular the
boundaries `lines = warn` and `lines = max` fall in the lower band each. -/
theorem loc_check_thresholds (path fileName content : String)
    (maxLoc warnLoc : Nat) (hw : warnLoc ≤ maxLoc) :
    ((rustLines content).length ≤ warnLoc →
      (locCheckFile path fileName content maxLoc warnLoc).passed = true ∧
      (locCheckFile path fileName content maxLoc warnLoc).severity = Severity.info) ∧
    (warnLoc < (rustLines content).length → (rustLines content).length ≤ maxLoc →
      (locCheckFile path fileName content maxLoc warnLoc).passed = false ∧
      (locCheckFile path fileName content maxLoc warnLoc).severity = Severity.warning) ∧
    (maxLoc < (rustLines content).length →
      (locCheckFile path fileName content maxLoc warnLoc).passed = false ∧
      (locCheckFile path fileName content maxLoc warnLoc).severity = Severity.error) := by
  simp only [locCheckFile]
  split_ifs with h1 h2 <;>
    refine ⟨fun ha => ?_, fun hb hc => ?_, fun hd => ?_⟩ <;>
    first
      | (exfalso; omega)
      | exact ⟨rfl, rfl⟩

/-- Witness for C4 at a three-line file against the default thresholds. -/
theorem loc_check_thresholds_witness :
    (350 ≤ 500 ∧ (rustLines "a\nb\nc").length ≤ 350) ∧
    (locCheckFile "p" "f.rs" "a\nb\nc" 500 350).passed = true ∧
    (locCheckFile "p" "f.rs" "a\nb\nc" 500 350).severity = Severity.info :=
  ⟨⟨by decide, by decide⟩,
    (loc_check_thresholds "p" "f.rs" "a\nb\nc" 500 350 (by decide)).1 (by decide)⟩

/-! ## Theorems: missing src directory (claim C10) -/

/-- Helper: without a `src` subdirectory the shared per-file traversal
yields nothing. -/
theorem srcCheck_eq_nil (f : String → String → String → List CheckResult)
    (proj : Project) (h : ∀ es, proj.root.lookup "src" ≠ some (FsTree.dir es)) :
    srcCheck f proj = [] := by
  unfold srcCheck
  cases hl : proj.root.lookup "src" with
  | none => rfl
  | some t =>
    cases t with
    | file c => rfl
    | dir es => exact absurd hl (h es)

/-- C10: when the project has no `src` subdirectory, the LOC, function
count, test quality and clippy-disables checks each return an empty result
list. -/
theorem no_src_dir_empty_results (proj : Project)
    (h : ∀ es, proj.root.lookup "src" ≠ some (FsTree.dir es)) :
    (∀ maxLoc warnLoc, locLimitsCheck proj maxLoc warnLoc = []) ∧
    (∀ maxFunctions, functionCountCheck proj maxFunctions = []) ∧
    testQualityCheck proj = [] ∧
    clippyDisablesCheck proj = [] :=
  ⟨fun _ _ => srcCheck_eq_nil _ _ h, fun _ => srcCheck_eq_nil _ _ h,
    srcCheck_eq_nil _ _ h, srcCheck_eq_nil _ _ h⟩

/-- Witness for C10 at a project with an empty root directory. -/
theorem no_src_dir_empty_results_witness :
    locLimitsCheck emptyProject 500 350 = [] ∧
    functionCountCheck emptyProject 7 = [] ∧
    testQualityCheck emptyProject = [] ∧
    clippyDisablesCheck emptyProject = [] := by
  have h := no_src_dir_empty_results emptyProject
    (by intro es hcontra; simp [emptyProject, FsTree.lookup] at hcontra)
  exact ⟨h.1 500 350, h.2.1 7, h.2.2.1, h.2.2.2⟩

/-! ## Theorems: cache-busting keys (claim C3) -/

/-- C3 counterexample: a local image link whose only cache-busting key is an
appended `&version=` parameter is not recognised by `has_cache_busting` and
is flagged, although the claimed pattern set accepts it. -/
theorem cache_busting_appended_key_counterexample :
    hasCacheBusting "./img.png?a=1&version=2" = false ∧
    (claimedCacheBustingPatterns.any
      fun p => strContains "./img.png?a=1&version=2" p) = true ∧
    linkFlagged "./img.png?a=1&version=2" = true := by
  decide

/-- C3 amended: the five keys are recognised as first query parameter, but
as appended parameters only `v` and `ts` are; flagging is exactly local ∧
image extension ∧ none of the seven code patterns present. -/
theorem has_cache_busting_recognized_patterns :
    (∀ link k, k ∈ ["v", "ts", "t", "version", "hash"] →
      strContains link ("?" ++ k ++ "=") = true → hasCacheBusting link = true) ∧
    (∀ link k, k ∈ ["v", "ts"] →
      strContains link ("&" ++ k ++ "=") = true → hasCacheBusting link = true) ∧
    (∀ link, linkFlagged link =
      (!strStartsWith link "http://" && !strStartsWith link "https://" &&
        (IMAGE_EXTENSIONS.any fun ext => strContains (strToLower link) ext) &&
        !(["?v=", "?ts=", "?t=", "?version=", "?hash=", "&v=", "&ts="].any
          fun p => strContains link p))) := by
  refine ⟨?_, ?_, ?_⟩
  · intro link k hk hc
    fin_cases hk <;> exact List.any_eq_true.2 ⟨_, by decide, hc⟩
  · intro link k hk hc
    fin_cases hk <;> exact List.any_eq_true.2 ⟨_, by decide, hc⟩
  · intro link
    unfold linkFlagged hasCacheBusting cacheBustingPatterns
    by_cases h1 : strStartsWith link "http://" <;>
    by_cases h2 : strStartsWith link "https://" <;>
    by_cases h3 : (IMAGE_EXTENSIONS.any fun ext => strContains (strToLower link) ext) <;>
      simp [h1, h2, h3]

/-- Witness for C3 amended: a first-parameter `?v=` key is recognised. -/
theorem has_cache_busting_recognized_patterns_witness :
    ("v" ∈ ["v", "ts", "t", "version", "hash"] ∧
      strContains "./a.png?v=1" ("?" ++ "v" ++ "=") = true) ∧
    hasCacheBusting "./a.png?v=1" = true :=
  ⟨⟨by decide, by decide⟩,
    has_cache_busting_recognized_patterns.1 "./a.png?v=1" "v" (by decide) (by decide)⟩

/-! ## Theorems: test-scope exclusion in count_functions (claim C8) -/

/-- Helper: the brace loop never touches the function count. -/
theorem braceStep_count (st : FnScan) (ch : Char) :
    (braceStep st ch).count = st.count := by
  unfold braceStep
  split_ifs <;> rfl

/-- Helper: folding the brace loop over a line preserves the count. -/
theorem foldl_braceStep_count (l : List Char) : ∀ st : FnScan,
    (l.foldl braceStep st).count = st.count := by
  induction l with
  | nil => intro st; rfl
  | cons c cs ih => intro st; rw [List.foldl_cons, ih, braceStep_count]

/-- Helper: a line after which the scanner is still inside the test-module
scope contributes nothing to the function count. -/
theorem fnScanLine_inTest_count (st : FnScan) (line : String)
    (h : (fnScanLine st line).inTestModule = true) :
    (fnScanLine st line).count = st.count := by
  simp only [fnScanLine] at h ⊢
  split_ifs at h ⊢ <;>
    first
      | rfl
      | (exact foldl_braceStep_count _ _)
      | simp_all

/-- Helper: the head of the state sequence is the initial state. -/
theorem fnStatesFrom_head (st : FnScan) (ls : List String) :
    (fnStatesFrom st ls)[0]? = some st := by
  cases ls <;> simp [fnStatesFrom]

/-- Helper: consecutive states are related by the per-line transition of
the corresponding line. -/
theorem fnStatesFrom_adjacent (ls : List String) : ∀ (st : FnScan) (i : Nat)
    (a b : FnScan), (fnStatesFrom st ls)[i]? = some a →
    (fnStatesFrom st ls)[i + 1]? = some b →
    ∃ line, ls[i]? = some line ∧ b = fnScanLine a line := by
  induction ls with
  | nil =>
    intro st i a b ha hb
    rw [fnStatesFrom, List.getElem?_cons_succ] at hb
    simp at hb
  | cons l rest ih =>
    intro st i a b ha hb
    rw [fnStatesFrom] at ha hb
    cases i with
    | zero =>
      rw [List.getElem?_cons_zero] at ha
      rw [List.getElem?_cons_succ, fnStatesFrom_head] at hb
      obtain rfl : st = a := by injection ha
      obtain rfl : fnScanLine st l = b := by injection hb
      exact ⟨l, by simp, rfl⟩
    | succ j =>
      rw [List.getElem?_cons_succ] at ha hb
      obtain ⟨line, h1, h2⟩ := ih (fnScanLine st l) j a b ha hb
      exact ⟨line, by rw [List.getElem?_cons_succ]; exact h1, h2⟩

/-- Helper: the last state of the sequence is the full fold, whose count is
what `count_functions` returns. -/
theorem fnStatesFrom_getLast (ls : List String) : ∀ st : FnScan,
    (fnStatesFrom st ls).getLast? = some (ls.foldl fnScanLine st) := by
  induction ls with
  | nil => intro st; rfl
  | cons l rest ih =>
    intro st
    rw [fnStatesFrom, List.foldl_cons, ← ih (fnScanLine st l)]
    cases rest with
    | nil => rfl
    | cons l2 rest2 => rw [fnStatesFrom]; exact List.getLast?_cons_cons

/-- C8: a function-definition line strictly inside a test-module scope is
never counted: whenever the scanner of `count_functions` is still inside the
scope after processing a line (so for every interior line, at any nesting
depth), that line left the count unchanged; and the sequence of states ends
in the fold whose count `count_functions` returns. -/
theorem count_functions_test_scope_exclusion (content : String) (i : Nat)
    (a b : FnScan)
    (ha : (fnStatesFrom fnScanInit (rustLines content))[i]? = some a)
    (hb : (fnStatesFrom fnScanInit (rustLines content))[i + 1]? = some b)
    (hin : b.inTestModule = true) :
    b.count = a.count ∧
    (fnStatesFrom fnScanInit (rustLines content)).getLast? =
      some ((rustLines content).foldl fnScanLine fnScanInit) ∧
    countFunctions content = ((rustLines content).foldl fnScanLine fnScanInit).count := by
  obtain ⟨line, hline, hb'⟩ :=
    fnStatesFrom_adjacent (rustLines content) fnScanInit i a b ha hb
  refine ⟨?_, fnStatesFrom_getLast _ _, rfl⟩
  subst hb'
  exact fnScanLine_inTest_count a line hin

/-- Witness for C8 at a file whose test module holds a helper function. -/
theorem count_functions_test_scope_exclusion_witness :
    (FnScan.mk 0 true false 1 0).count = (FnScan.mk 0 true false 1 0).count ∧
    (fnStatesFrom fnScanInit (rustLines testModuleContent)).getLast? =
      some ((rustLines testModuleContent).foldl fnScanLine fnScanInit) ∧
    countFunctions testModuleContent =
      ((rustLines testModuleContent).foldl fnScanLine fnScanInit).count :=
  count_functions_test_scope_exclusion testModuleContent 2
    (FnScan.mk 0 true false 1 0) (FnScan.mk 0 true false 1 0)
    (by decide) (by decide) (by decide)

/-! ## Theorems: edition check (claim C7) -/

/-- C7: the edition check's case analysis.  An exactly matching declared
edition passes; a mismatch is an Error whose fix carries the literal
replacement (in particular it contains the required value); a workspace
root without a package section passes; an otherwise missing edition is an
Error; an unparsable manifest is an Error; and a project with no manifest
yields the single Warning. -/
theorem rust_edition_cases :
    (∀ (toml : TomlValue) (relPath filePath required : String),
      editionOf toml = some required →
      (checkEditionValue toml relPath filePath required).passed = true ∧
      (checkEditionValue toml relPath filePath required).severity = Severity.info) ∧
    (∀ (toml : TomlValue) (relPath filePath required e : String),
      editionOf toml = some e → e ≠ required →
      (checkEditionValue toml relPath filePath required).passed = false ∧
      (checkEditionValue toml relPath filePath required).severity = Severity.error ∧
      (checkEditionValue toml relPath filePath required).fix =
        some ("Change edition = \"" ++ e ++ "\" to edition = \"" ++ required ++ "\"") ∧
      strContains ("Change edition = \"" ++ e ++ "\" to edition = \"" ++
        required ++ "\"") required = true) ∧
    (∀ (toml : TomlValue) (relPath filePath required : String),
      editionOf toml = none → (toml.get "workspace").isSome = true →
      (toml.get "package").isNone = true →
      (checkEditionValue toml relPath filePath required).passed = true ∧
      (checkEditionValue toml relPath filePath required).severity = Severity.info) ∧
    (∀ (toml : TomlValue) (relPath filePath required : String),
      editionOf toml = none →
      ((toml.get "workspace").isSome && (toml.get "package").isNone) = false →
      (checkEditionValue toml relPath filePath required).passed = false ∧
      (checkEditionValue toml relPath filePath required).severity = Severity.error) ∧
    (∀ (parse : String → Option TomlValue) (content path required : String),
      parse content = none →
      (checkCargoToml parse required path (FsTree.file content)).passed = false ∧
      (checkCargoToml parse required path (FsTree.file content)).severity =
        Severity.error) ∧
    (∀ (parse : String → Option TomlValue) (proj : Project) (required : String),
      (findCargoEntries proj).isEmpty = true →
      rustEditionCheck parse proj required =
        [CheckResult.fail "rust-edition" Severity.warning "No Cargo.toml found"]) := by
  refine ⟨?_, ?_, ?_, ?_, ?_, ?_⟩
  · intro toml relPath filePath required h
    simp [checkEditionValue, h]
  · intro toml relPath filePath required e h he
    refine ⟨by simp [checkEditionValue, h, he], by simp [checkEditionValue, h, he],
      by simp [checkEditionValue, h, he], ?_⟩
    exact strContains_append_middle
      ("Change edition = \"" ++ e ++ "\" to edition = \"") required "\""
  · intro toml relPath filePath required h hw hp
    simp [checkEditionValue, h, hw, hp]
  · intro toml relPath filePath required h hcond
    simp [checkEditionValue, h, hcond]
  · intro parse content path required hparse
    simp [checkCargoToml, hparse]
  · intro parse proj required hempty
    simp [rustEditionCheck, hempty]

/-- Witness for C7 instantiating all six cases at concrete manifests. -/
theorem rust_edition_cases_witness :
    (editionOf tomlPkg2024 = some "2024" ∧
      (checkEditionValue tomlPkg2024 "Cargo.toml" "p" "2024").passed = true) ∧
    (editionOf tomlPkg2024 = some "2024" ∧ "2024" ≠ "2021" ∧
      (checkEditionValue tomlPkg2024 "Cargo.toml" "p" "2021").severity =
        Severity.error ∧
      strContains ("Change edition = \"" ++ "2024" ++ "\" to edition = \"" ++
        "2021" ++ "\"") "2021" = true) ∧
    (editionOf tomlWorkspaceOnly = none ∧
      (checkEditionValue tomlWorkspaceOnly "Cargo.toml" "p" "2024").passed = true) ∧
    (editionOf tomlPkgNoEdition = none ∧
      (checkEditionValue tomlPkgNoEdition "Cargo.toml" "p" "2024").severity =
        Severity.error) ∧
    (noParse "x" = none ∧
      (checkCargoToml noParse "2024" "p" (FsTree.file "x")).severity =
        Severity.error) ∧
    ((findCargoEntries emptyProject).isEmpty = true ∧
      rustEditionCheck noParse emptyProject "2024" =
        [CheckResult.fail "rust-edition" Severity.warning "No Cargo.toml found"]) :=
  ⟨⟨by decide, (rust_edition_cases.1 tomlPkg2024 "Cargo.toml" "p" "2024" (by decide)).1⟩,
   ⟨by decide, by decide,
    (rust_edition_cases.2.1 tomlPkg2024 "Cargo.toml" "p" "2021" "2024"
      (by decide) (by decide)).2.1,
    (rust_edition_cases.2.1 tomlPkg2024 "Cargo.toml" "p" "2021" "2024"
      (by decide) (by decide)).2.2.2⟩,
   ⟨by decide, (rust_edition_cases.2.2.1 tomlWorkspaceOnly "Cargo.toml" "p" "2024"
      (by decide) (by decide) (by decide)).1⟩,
   ⟨by decide, (rust_edition_cases.2.2.2.1 tomlPkgNoEdition "Cargo.toml" "p" "2024"
      (by decide) (by decide)).2⟩,
   ⟨rfl, (rust_edition_cases.2.2.2.2.1 noParse "x" "p" "2024" rfl).2⟩,
   ⟨by decide, rust_edition_cases.2.2.2.2.2 noParse emptyProject "2024" (by decide)⟩⟩

/-! ## Result-invariant lemmas per check (for claims C9 and C2) -/

/-- A passing result satisfies the invariant. -/
theorem resOK_pass (name msg : String) : ResOK name (CheckResult.pass name msg) := by
  refine ⟨rfl, fun _ => rfl, fun h => ?_⟩
  simp at h

/-- A failing result with Warning or Error severity satisfies the invariant. -/
theorem resOK_fail (name msg : String) (s : Severity)
    (h : s = Severity.warning ∨ s = Severity.error) :
    ResOK name (CheckResult.fail name s msg) := by
  refine ⟨rfl, fun hc => ?_, fun _ => h⟩
  simp at hc

/-- The `file` builder preserves the invariant. -/
theorem resOK_withFile {name : String} {r : CheckResult} (h : ResOK name r)
    (f : String) : ResOK name (r.withFile f) := h

/-- The `line` builder preserves the invariant. -/
theorem resOK_withLine {name : String} {r : CheckResult} (h : ResOK name r)
    (n : Nat) : ResOK name (r.withLine n) := h

/-- The `fix` builder preserves the invariant. -/
theorem resOK_withFix {name : String} {r : CheckResult} (h : ResOK name r)
    (f : String) : ResOK name (r.withFix f) := h

/-- Membership in a guarded segment. -/
theorem mem_ite_seg {c : Prop} [Decidable c] {l : List CheckResult}
    {r : CheckResult} (h : r ∈ (if c then l else [])) : r ∈ l := by
  split at h
  · exact h
  · simp at h

/-- The LOC per-file result satisfies the invariant. -/
theorem locCheckFile_resOK (p n c : String) (a b : Nat) :
    ResOK "loc-limits" (locCheckFile p n c a b) := by
  simp only [locCheckFile]
  split_ifs with h1 h2
  · exact resOK_withFix (resOK_withFile (resOK_fail _ _ _ (Or.inr rfl)) _) _
  · exact resOK_withFix (resOK_withFile (resOK_fail _ _ _ (Or.inl rfl)) _) _
  · exact resOK_withFile (resOK_pass _ _) _

/-- The function-count per-file result satisfies the invariant. -/
theorem functionCountFile_resOK (p n c : String) (m : Nat) :
    ResOK "function-count" (functionCountFile p n c m) := by
  simp only [functionCountFile]
  split_ifs with h1
  · exact resOK_withFix (resOK_withFile (resOK_fail _ _ _ (Or.inr rfl)) _) _
  · exact resOK_withFile (resOK_pass _ _) _

/-- The per-crate module-count result satisfies the invariant. -/
theorem checkCrate_resOK (t : FsTree) (p n : String) (m : Nat) :
    ResOK "module-count" (checkCrate t p n m) := by
  simp only [checkCrate]
  split_ifs with h1
  · exact resOK_withFix (resOK_withFile (resOK_fail _ _ _ (Or.inr rfl)) _) _
  · exact resOK_withFile (resOK_pass _ _) _

/-- The edition comparison result satisfies the invariant. -/
theorem checkEditionValue_resOK (toml : TomlValue) (relPath filePath required : String) :
    ResOK "rust-edition" (checkEditionValue toml relPath filePath required) := by
  unfold checkEditionValue
  split
  · split_ifs
    · exact resOK_withFile (resOK_pass _ _) _
    · exact resOK_withFix (resOK_withFile (resOK_fail _ _ _ (Or.inr rfl)) _) _
  · split_ifs
    · exact resOK_withFile (resOK_pass _ _) _
    · exact resOK_withFix (resOK_withFile (resOK_fail _ _ _ (Or.inr rfl)) _) _

/-- The per-manifest result satisfies the invariant. -/
theorem checkCargoToml_resOK (parse : String → Option TomlValue)
    (required path : String) (t : FsTree) :
    ResOK "rust-edition" (checkCargoToml parse required path t) := by
  unfold checkCargoToml
  split
  · exact resOK_withFile (resOK_fail _ _ _ (Or.inr rfl)) _
  · split
    · exact checkEditionValue_resOK _ "Cargo.toml" path required
    · exact resOK_withFile (resOK_fail _ _ _ (Or.inr rfl)) _

/-- Every edition-check result satisfies the invariant. -/
theorem rustEditionCheck_resOK (parse : String → Option TomlValue)
    (proj : Project) (required : String) :
    ∀ r ∈ rustEditionCheck parse proj required, ResOK "rust-edition" r := by
  intro r hr
  simp only [rustEditionCheck] at hr
  split_ifs at hr
  · rcases List.mem_singleton.1 hr with rfl
    exact resOK_fail _ _ _ (Or.inl rfl)
  · rcases List.mem_map.1 hr with ⟨e, he, rfl⟩
    exact checkCargoToml_resOK parse required e.fst e.snd

/-- Every workspace-member result satisfies the invariant. -/
theorem workspaceMembers_resOK (maxModules : Nat) :
    ∀ es r, r ∈ workspaceMembers maxModules es → ResOK "module-count" r := by
  intro es
  induction es using workspaceMembers.induct maxModules with
  | case1 => intro r hr; simp [workspaceMembers] at hr
  | case2 name es rest ih =>
    intro r hr
    rw [workspaceMembers] at hr
    rcases List.mem_append.1 hr with h | h
    · split_ifs at h
      · split at h
        · rcases List.mem_singleton.1 h with rfl
          exact checkCrate_resOK _ _ _ _
        · simp at h
      · simp at h
    · exact ih r h
  | case3 name c rest ih =>
    intro r hr
    rw [workspaceMembers] at hr
    exact ih r hr

/-- Every workspace-mode result satisfies the invariant. -/
theorem checkWorkspace_resOK (proj : Project) (maxModules : Nat) :
    ∀ r ∈ checkWorkspace proj maxModules, ResOK "module-count" r := by
  intro r hr
  unfold checkWorkspace at hr
  rcases List.mem_append.1 hr with h | h
  · split at h
    · rcases List.mem_singleton.1 h with rfl
      exact checkCrate_resOK _ _ _ _
    · simp at h
  · split at h
    · simp at h
    · exact workspaceMembers_resOK maxModules _ r h

/-- Every single-crate-mode result satisfies the invariant. -/
theorem moduleCountSingle_resOK (proj : Project) (maxModules : Nat) :
    ∀ r ∈ moduleCountSingle proj maxModules, ResOK "module-count" r := by
  intro r hr
  unfold moduleCountSingle at hr
  split at hr
  · rcases List.mem_singleton.1 hr with rfl
    exact checkCrate_resOK _ _ _ _
  · simp at hr

/-- Every module-count result satisfies the invariant. -/
theorem moduleCountCheck_resOK (proj : Project) (maxModules : Nat) :
    ∀ r ∈ moduleCountCheck proj maxModules, ResOK "module-count" r := by
  intro r hr
  unfold moduleCountCheck at hr
  split at hr
  · split_ifs at hr
    · exact checkWorkspace_resOK proj maxModules r hr
    · exact moduleCountSingle_resOK proj maxModules r hr
  · exact moduleCountSingle_resOK proj maxModules r hr

/-- The shared per-file traversal propagates the invariant. -/
theorem walkRs_resOK {f : String → String → String → List CheckResult}
    {name : String} (hf : ∀ p n c r, r ∈ f p n c → ResOK name r) :
    ∀ (d : String) (es : List (String × FsTree)) r, r ∈ walkRs f d es →
      ResOK name r := by
  intro d es
  induction d, es using walkRs.induct f with
  | case1 d => intro r hr; simp [walkRs] at hr
  | case2 d nm es rest ih1 ih2 =>
    intro r hr
    rw [walkRs] at hr
    rcases List.mem_append.1 hr with h | h
    · exact ih1 r h
    · exact ih2 r h
  | case3 d nm c rest ih =>
    intro r hr
    rw [walkRs] at hr
    rcases List.mem_append.1 hr with h | h
    · exact hf _ _ _ r (mem_ite_seg h)
    · exact ih r h

/-- The src-directory prologue propagates the invariant. -/
theorem srcCheck_resOK {f : String → String → String → List CheckResult}
    {name : String} (hf : ∀ p n c r, r ∈ f p n c → ResOK name r)
    (proj : Project) : ∀ r ∈ srcCheck f proj, ResOK name r := by
  intro r hr
  unfold srcCheck at hr
  split at hr
  · exact walkRs_resOK hf _ _ r hr
  · simp at hr
  · simp at hr

/-- Every LOC-limits result satisfies the invariant. -/
theorem locLimitsCheck_resOK (proj : Project) (a b : Nat) :
    ∀ r ∈ locLimitsCheck proj a b, ResOK "loc-limits" r := by
  intro r hr
  refine srcCheck_resOK (fun p n c r hm => ?_) proj r hr
  rcases List.mem_singleton.1 hm with rfl
  exact locCheckFile_resOK p n c a b

/-- Every function-count result satisfies the invariant. -/
theorem functionCountCheck_resOK (proj : Project) (m : Nat) :
    ∀ r ∈ functionCountCheck proj m, ResOK "function-count" r := by
  intro r hr
  refine srcCheck_resOK (fun p n c r hm => ?_) proj r hr
  rcases List.mem_singleton.1 hm with rfl
  exact functionCountFile_resOK p n c m

/-- Every test-quality finding satisfies the invariant. -/
theorem tqLineFindings_resOK (path trimmed testName : String)
    (lineNumber testStartLine : Nat) :
    ∀ r ∈ tqLineFindings path trimmed testName lineNumber testStartLine,
      ResOK "test-quality" r := by
  intro r hr
  unfold tqLineFindings at hr
  rcases mem_listFlat.1 hr with ⟨pat, hpat, hin⟩
  rcases List.mem_singleton.1 (mem_ite_seg hin) with rfl
  exact resOK_withFix (resOK_withLine (resOK_withFile
    (resOK_fail _ _ _ (Or.inl rfl)) _) _) _

/-- Every per-line test-quality result satisfies the invariant. -/
theorem tqLine_resOK (path : String) (st : TqState) (n : Nat) (line : String) :
    ∀ r ∈ (tqLine path st n line).snd, ResOK "test-quality" r := by
  intro r hr
  simp only [tqLine] at hr
  split_ifs at hr <;>
    first
      | exact tqLineFindings_resOK _ _ _ _ _ r hr
      | simp at hr

/-- The test-quality fold propagates the invariant. -/
theorem tqRun_resOK (path : String) :
    ∀ (lines : List (Nat × String)) (st : TqState) r,
      r ∈ tqRun path st lines → ResOK "test-quality" r := by
  intro lines
  induction lines with
  | nil => intro st r hr; simp [tqRun] at hr
  | cons p rest ih =>
    intro st r hr
    rcases p with ⟨n, line⟩
    simp only [tqRun] at hr
    rcases List.mem_append.1 hr with h | h
    · exact tqLine_resOK path st n line r h
    · exact ih _ r h

/-- Every per-file test-quality result satisfies the invariant. -/
theorem tqFile_resOK (path fileName content : String) :
    ∀ r ∈ tqFile path fileName content, ResOK "test-quality" r := by
  intro r hr
  simp only [tqFile] at hr
  split_ifs at hr
  · rcases List.mem_singleton.1 hr with rfl
    exact resOK_withFile (resOK_pass _ _) _
  · exact tqRun_resOK path _ tqInit r hr

/-- Every test-quality result satisfies the invariant. -/
theorem testQualityCheck_resOK (proj : Project) :
    ∀ r ∈ testQualityCheck proj, ResOK "test-quality" r :=
  srcCheck_resOK (fun p n c r hm => tqFile_resOK p n c r hm) proj

/-- Every per-line clippy finding satisfies the invariant. -/
theorem clippyLineResults_resOK (path fileName trimmed : String) (ln : Nat) :
    ∀ r ∈ clippyLineResults path fileName trimmed ln, ResOK "clippy-disables" r := by
  intro r hr
  unfold clippyLineResults at hr
  rcases mem_listFlat.1 hr with ⟨pat, hpat, hin⟩
  split_ifs at hin <;>
    first
      | (rcases List.mem_singleton.1 hin with rfl
         exact resOK_withFix (resOK_withLine (resOK_withFile
           (resOK_fail _ _ _ (Or.inr rfl)) _) _) _)
      | (rcases List.mem_singleton.1 hin with rfl
         exact resOK_withFix (resOK_withLine (resOK_withFile
           (resOK_fail _ _ _ (Or.inl rfl)) _) _) _)
      | simp at hin

/-- The clippy fold propagates the invariant. -/
theorem clippyRun_resOK (path fileName : String) :
    ∀ (lines : List (Nat × String)) (inRaw : Bool) r,
      r ∈ clippyRun path fileName inRaw lines → ResOK "clippy-disables" r := by
  intro lines
  induction lines with
  | nil => intro inRaw r hr; simp [clippyRun] at hr
  | cons p rest ih =>
    intro inRaw r hr
    rcases p with ⟨n, line⟩
    simp only [clippyRun] at hr
    split_ifs at hr <;>
      first
        | exact ih _ r hr
        | (rcases List.mem_append.1 hr with h | h
           exacts [clippyLineResults_resOK _ _ _ _ r h, ih _ r h])

/-- Every per-file clippy result satisfies the invariant. -/
theorem clippyFile_resOK (path fileName content : String) :
    ∀ r ∈ clippyFile path fileName content, ResOK "clippy-disables" r := by
  intro r hr
  simp only [clippyFile] at hr
  split_ifs at hr
  · rcases List.mem_singleton.1 hr with rfl
    exact resOK_withFile (resOK_pass _ _) _
  · exact clippyRun_resOK path fileName _ false r hr

/-- Every clippy-disables result satisfies the invariant. -/
theorem clippyDisablesCheck_resOK (proj : Project) :
    ∀ r ∈ clippyDisablesCheck proj, ResOK "clippy-disables" r :=
  srcCheck_resOK (fun p n c r hm => clippyFile_resOK p n c r hm) proj

/-- Every per-file cache-busting result satisfies the invariant. -/
theorem checkReadmeContent_resOK (path fileName content : String) :
    ∀ r ∈ checkReadmeContent path fileName content, ResOK "cache-busting" r := by
  intro r hr
  simp only [checkReadmeContent] at hr
  split_ifs at hr
  · rcases List.mem_singleton.1 hr with rfl
    exact resOK_withFile (resOK_pass _ _) _
  · rcases mem_listFlat.1 hr with ⟨p, hp, hin⟩
    rcases mem_listFlat.1 hin with ⟨link, hlink, hone⟩
    rcases List.mem_singleton.1 (mem_ite_seg hone) with rfl
    exact resOK_withFix (resOK_withLine (resOK_withFile
      (resOK_fail _ _ _ (Or.inl rfl)) _) _) _

/-- Every README-node result satisfies the invariant. -/
theorem checkReadme_resOK (path fileName : String) (t : FsTree) :
    ∀ r ∈ checkReadme path fileName t, ResOK "cache-busting" r := by
  intro r hr
  cases t with
  | file content => exact checkReadmeContent_resOK path fileName content r hr
  | dir es =>
    rcases List.mem_singleton.1 hr with rfl
    exact resOK_withFile (resOK_fail _ _ _ (Or.inl rfl)) _

/-- The README loop propagates the invariant. -/
theorem cacheReadmeLoop_resOK (proj : Project) :
    ∀ (names : List String) (visited : List String) r,
      r ∈ (cacheReadmeLoop proj visited names).snd → ResOK "cache-busting" r := by
  intro names
  induction names with
  | nil => intro visited r hr; simp [cacheReadmeLoop] at hr
  | cons name rest ih =>
    intro visited r hr
    simp only [cacheReadmeLoop] at hr
    split at hr
    · split_ifs at hr
      · exact ih _ r hr
      · simp only [] at hr
        rcases List.mem_append.1 hr with h | h
        · exact checkReadme_resOK _ _ _ r h
        · exact ih _ r h
    · exact ih _ r hr

/-- The docs loop propagates the invariant. -/
theorem cacheDocsLoop_resOK (projName : String) :
    ∀ (entries : List (String × FsTree)) (visited : List String) r,
      r ∈ cacheDocsLoop projName visited entries → ResOK "cache-busting" r := by
  intro entries
  induction entries with
  | nil => intro visited r hr; simp [cacheDocsLoop] at hr
  | cons e rest ih =>
    intro visited r hr
    rcases e with ⟨name, t⟩
    simp only [cacheDocsLoop] at hr
    split_ifs at hr
    · exact ih _ r hr
    · rcases List.mem_append.1 hr with h | h
      · exact checkReadme_resOK _ _ _ r h
      · exact ih _ r h
    · exact ih _ r hr

/-- Every cache-busting result satisfies the invariant. -/
theorem cacheBustingCheck_resOK (proj : Project) :
    ∀ r ∈ cacheBustingCheck proj, ResOK "cache-busting" r := by
  intro r hr
  simp only [cacheBustingCheck] at hr
  split_ifs at hr
  · rcases List.mem_singleton.1 hr with rfl
    exact resOK_pass _ _
  · rcases List.mem_append.1 hr with h | h
    · exact cacheReadmeLoop_resOK proj readmeNames [] r h
    · split at h
      · exact cacheDocsLoop_resOK proj.name _ _ r h
      · simp at h

/-- Every orchestrator result satisfies the invariant of its producing
check. -/
theorem runSelectedChecks_resOK (parse : String → Option TomlValue)
    (proj : Project) (config : CheckConfig) (only : Option String) :
    ∀ r ∈ runSelectedChecks parse proj config only, ∃ name, ResOK name r := by
  intro r hr
  unfold runSelectedChecks at hr
  rcases List.mem_append.1 hr with hr | hr
  rcases List.mem_append.1 hr with hr | hr
  rcases List.mem_append.1 hr with hr | hr
  rcases List.mem_append.1 hr with hr | hr
  rcases List.mem_append.1 hr with hr | hr
  rcases List.mem_append.1 hr with hr | hr
  · exact ⟨_, rustEditionCheck_resOK parse proj config.requiredEdition r (mem_ite_seg hr)⟩
  · exact ⟨_, locLimitsCheck_resOK proj config.maxFileLoc config.warnFileLoc r (mem_ite_seg hr)⟩
  · exact ⟨_, functionCountCheck_resOK proj config.maxFunctionsPerModule r (mem_ite_seg hr)⟩
  · exact ⟨_, moduleCountCheck_resOK proj config.maxModulesPerCrate r (mem_ite_seg hr)⟩
  · exact ⟨_, testQualityCheck_resOK proj r (mem_ite_seg hr)⟩
  · exact ⟨_, clippyDisablesCheck_resOK proj r (mem_ite_seg hr)⟩
  · exact ⟨_, cacheBustingCheck_resOK proj r (mem_ite_seg hr)⟩

/-- C9: every result the orchestrator returns, over any project, parse
oracle, configuration and filter, has Info severity when it passes and
Warning or Error severity when it fails; the embedding is purely
functional, so results are only constructed and accumulated, never
mutated. -/
theorem check_results_severity_invariant (parse : String → Option TomlValue)
    (proj : Project) (config : CheckConfig) (only : Option String)
    (r : CheckResult) (hr : r ∈ runSelectedChecks parse proj config only) :
    (r.passed = true → r.severity = Severity.info) ∧
    (r.passed = false → r.severity = Severity.warning ∨ r.severity = Severity.error) := by
  obtain ⟨name, hok⟩ := runSelectedChecks_resOK parse proj config only r hr
  exact ⟨hok.2.1, hok.2.2⟩

/-- Witness for C9 at the empty project: the no-manifest Warning is among
the results and satisfies the invariant. -/
theorem check_results_severity_invariant_witness :
    (CheckResult.fail "rust-edition" Severity.warning "No Cargo.toml found" ∈
      runSelectedChecks noParse emptyProject defaultCheckConfig none) ∧
    ((CheckResult.fail "rust-edition" Severity.warning "No Cargo.toml found").passed
        = false →
      (CheckResult.fail "rust-edition" Severity.warning "No Cargo.toml found").severity
          = Severity.warning ∨
        (CheckResult.fail "rust-edition" Severity.warning "No Cargo.toml found").severity
          = Severity.error) :=
  ⟨by decide,
    (check_results_severity_invariant noParse emptyProject defaultCheckConfig none
      (CheckResult.fail "rust-edition" Severity.warning "No Cargo.toml found")
      (by decide)).2⟩

/-! ## Theorems: orchestrator order (claim C2) -/

/-- C2 counterexample: on a plain single-crate project with no filter, the
orchestrator emits a per-file result (loc-limits, claim class 1) at index 1
and a manifest result (module-count, claim class 0) only at index 5, so
manifest-level checks do not all precede per-file checks. -/
theorem run_selected_checks_order_counterexample :
    ((runSelectedChecks stubParse orderProject defaultCheckConfig none)[1]?).map
      (fun r => claimClassOf r.checkName) = some 1 ∧
    ((runSelectedChecks stubParse orderProject defaultCheckConfig none)[5]?).map
      (fun r => claimClassOf r.checkName) = some 0 := by
  have hwalk : ∀ f : String → String → String → List CheckResult,
      walkRs f ("proj" ++ "/src")
        [("main.rs", FsTree.file "fn main() \x7b\x7d\n"), ("util.rs", FsTree.file "")] =
        f ("proj" ++ "/src" ++ "/" ++ "main.rs") "main.rs" "fn main() \x7b\x7d\n" ++
          f ("proj" ++ "/src" ++ "/" ++ "util.rs") "util.rs" "" := by
    intro f
    simp only [walkRs]
    rw [if_pos (show isRsName "main.rs" = true by decide),
      if_pos (show isRsName "util.rs" = true by decide)]
    simp
  have hLoc : locLimitsCheck orderProject 500 350 =
      [locCheckFile ("proj" ++ "/src" ++ "/" ++ "main.rs") "main.rs"
        "fn main() \x7b\x7d\n" 500 350,
       locCheckFile ("proj" ++ "/src" ++ "/" ++ "util.rs") "util.rs" "" 500 350] :=
    hwalk (fun path name c => [locCheckFile path name c 500 350])
  have hFn : functionCountCheck orderProject 7 =
      [functionCountFile ("proj" ++ "/src" ++ "/" ++ "main.rs") "main.rs"
        "fn main() \x7b\x7d\n" 7,
       functionCountFile ("proj" ++ "/src" ++ "/" ++ "util.rs") "util.rs" "" 7] :=
    hwalk (fun path name c => [functionCountFile path name c 7])
  have hE : rustEditionCheck stubParse orderProject "2024" =
      [(CheckResult.pass "rust-edition"
          ("Cargo.toml" ++ ": Using Rust " ++ "2024" ++ " edition")).withFile
        ("proj" ++ "/Cargo.toml")] := by
    decide
  have hM : moduleCountCheck orderProject 4 =
      [checkCrate
        (FsTree.dir [("main.rs", FsTree.file "fn main() \x7b\x7d\n"),
          ("util.rs", FsTree.file "")])
        ("proj" ++ "/src") "proj" 4] := by
    decide
  have hL : runSelectedChecks stubParse orderProject defaultCheckConfig none =
      rustEditionCheck stubParse orderProject "2024" ++
        [locCheckFile ("proj" ++ "/src" ++ "/" ++ "main.rs") "main.rs"
          "fn main() \x7b\x7d\n" 500 350,
         locCheckFile ("proj" ++ "/src" ++ "/" ++ "util.rs") "util.rs" "" 500 350] ++
        [functionCountFile ("proj" ++ "/src" ++ "/" ++ "main.rs") "main.rs"
          "fn main() \x7b\x7d\n" 7,
         functionCountFile ("proj" ++ "/src" ++ "/" ++ "util.rs") "util.rs" "" 7] ++
        moduleCountCheck orderProject 4 ++
        testQualityCheck orderProject ++ clippyDisablesCheck orderProject ++
        cacheBustingCheck orderProject := by
    show rustEditionCheck stubParse orderProject "2024" ++
        locLimitsCheck orderProject 500 350 ++ functionCountCheck orderProject 7 ++
        moduleCountCheck orderProject 4 ++ testQualityCheck orderProject ++
        clippyDisablesCheck orderProject ++ cacheBustingCheck orderProject = _
    rw [hLoc, hFn]
  have g0 : ∀ (x : CheckResult) (l : List CheckResult), (x :: l)[0]? = some x :=
    fun _ _ => List.getElem?_cons_zero
  have g1 : ∀ (x0 : CheckResult) (l : List CheckResult), (x0 :: l)[1]? = l[0]? :=
    fun _ _ => List.getElem?_cons_succ
  have g5 : ∀ (x0 x1 x2 x3 x4 : CheckResult) (l : List CheckResult),
      (x0 :: x1 :: x2 :: x3 :: x4 :: l)[5]? = l[0]? := by
    intro x0 x1 x2 x3 x4 l
    rw [show (5 : Nat) = 4 + 1 from rfl, List.getElem?_cons_succ,
      show (4 : Nat) = 3 + 1 from rfl, List.getElem?_cons_succ,
      show (3 : Nat) = 2 + 1 from rfl, List.getElem?_cons_succ,
      show (2 : Nat) = 1 + 1 from rfl, List.getElem?_cons_succ,
      show (1 : Nat) = 0 + 1 from rfl, List.getElem?_cons_succ]
  rw [hL, hE, hM]
  simp only [List.cons_append, List.nil_append]
  constructor
  · rw [g1, g0]
    decide
  · rw [g5, g0]
    decide

/-- Lists of one repeated value are sorted. -/
theorem pairwise_le_of_const (k : Nat) : ∀ l : List Nat,
    (∀ x ∈ l, x = k) → List.Pairwise (· ≤ ·) l := by
  intro l
  induction l with
  | nil => intro _; exact List.Pairwise.nil
  | cons x xs ih =>
    intro h
    refine List.Pairwise.cons (fun y hy => ?_) (ih fun y hy => h y (by simp [hy]))
    rw [h x (by simp), h y (by simp [hy])]

/-- One grouping step: a block of constant class `k` prepended to a sorted
tail bounded below by `k` stays sorted and bounded below by `k`. -/
theorem grouped_step {f : CheckResult → Nat} {k : Nat} {l1 l2 : List CheckResult}
    (h1 : ∀ r ∈ l1, f r = k)
    (hp : List.Pairwise (· ≤ ·) (l2.map f)) (hb : ∀ r ∈ l2, k ≤ f r) :
    List.Pairwise (· ≤ ·) ((l1 ++ l2).map f) ∧ ∀ r ∈ l1 ++ l2, k ≤ f r := by
  constructor
  · rw [List.map_append, List.pairwise_append]
    refine ⟨?_, hp, ?_⟩
    · apply pairwise_le_of_const k
      intro x hx
      rcases List.mem_map.1 hx with ⟨ra, hra, rfl⟩
      exact h1 ra hra
    · intro a ha b hb'
      rcases List.mem_map.1 ha with ⟨ra, hra, rfl⟩
      rcases List.mem_map.1 hb' with ⟨rb, hrb, rfl⟩
      rw [h1 ra hra]
      exact hb rb hrb
  · intro r hr
    rcases List.mem_append.1 hr with h | h
    · rw [h1 r h]
    · exact hb r h

/-- C2 amended: the orchestrator's fixed deterministic order is
rust-edition, loc-limits, function-count, module-count, test-quality,
clippy-disables, cache-busting — results are grouped by check in exactly
that sequence (module-count runs between the first two per-file checks and
the last two, not before all of them). -/
theorem run_selected_checks_grouped_order (parse : String → Option TomlValue)
    (proj : Project) (config : CheckConfig) (only : Option String) :
    List.Pairwise (· ≤ ·)
      ((runSelectedChecks parse proj config only).map
        (fun r => amendedOrderIndex r.checkName)) := by
  have h1 : ∀ r ∈ (if shouldRunCheck only "rust-edition" then
      rustEditionCheck parse proj config.requiredEdition else []),
      amendedOrderIndex r.checkName = 0 := fun r h => by
    rw [(rustEditionCheck_resOK parse proj config.requiredEdition r (mem_ite_seg h)).1]
    decide
  have h2 : ∀ r ∈ (if shouldRunCheck only "loc-limits" then
      locLimitsCheck proj config.maxFileLoc config.warnFileLoc else []),
      amendedOrderIndex r.checkName = 1 := fun r h => by
    rw [(locLimitsCheck_resOK proj config.maxFileLoc config.warnFileLoc r (mem_ite_seg h)).1]
    decide
  have h3 : ∀ r ∈ (if shouldRunCheck only "function-count" then
      functionCountCheck proj config.maxFunctionsPerModule else []),
      amendedOrderIndex r.checkName = 2 := fun r h => by
    rw [(functionCountCheck_resOK proj config.maxFunctionsPerModule r (mem_ite_seg h)).1]
    decide
  have h4 : ∀ r ∈ (if shouldRunCheck only "module-count" then
      moduleCountCheck proj config.maxModulesPerCrate else []),
      amendedOrderIndex r.checkName = 3 := fun r h => by
    rw [(moduleCountCheck_resOK proj config.maxModulesPerCrate r (mem_ite_seg h)).1]
    decide
  have h5 : ∀ r ∈ (if shouldRunCheck only "test-quality" then
      testQualityCheck proj else []),
      amendedOrderIndex r.checkName = 4 := fun r h => by
    rw [(testQualityCheck_resOK proj r (mem_ite_seg h)).1]
    decide
  have h6 : ∀ r ∈ (if shouldRunCheck only "clippy-disables" then
      clippyDisablesCheck proj else []),
      amendedOrderIndex r.checkName = 5 := fun r h => by
    rw [(clippyDisablesCheck_resOK proj r (mem_ite_seg h)).1]
    decide
  have h7 : ∀ r ∈ (if shouldRunCheck only "cache-busting" then
      cacheBustingCheck proj else []),
      amendedOrderIndex r.checkName = 6 := fun r h => by
    rw [(cacheBustingCheck_resOK proj r (mem_ite_seg h)).1]
    decide
  have p7a := pairwise_le_of_const 6 _ (by
    intro x hx
    rcases List.mem_map.1 hx with ⟨r, hr, rfl⟩
    exact h7 r hr)
  have p7b : ∀ r ∈ (if shouldRunCheck only "cache-busting" then
      cacheBustingCheck proj else []), 6 ≤ amendedOrderIndex r.checkName :=
    fun r hr => le_of_eq (h7 r hr).symm
  have p6 := grouped_step h6 p7a (fun r hr => le_trans (by omega) (p7b r hr))
  have p5 := grouped_step h5 p6.1 (fun r hr => le_trans (by omega) (p6.2 r hr))
  have p4 := grouped_step h4 p5.1 (fun r hr => le_trans (by omega) (p5.2 r hr))
  have p3 := grouped_step h3 p4.1 (fun r hr => le_trans (by omega) (p4.2 r hr))
  have p2 := grouped_step h2 p3.1 (fun r hr => le_trans (by omega) (p3.2 r hr))
  have p1 := grouped_step h1 p2.1 (fun r hr => le_trans (by omega) (p2.2 r hr))
  unfold runSelectedChecks
  simp only [List.append_assoc]
  exact p1.1

end Guardian
